import Mathlib

/-!
Verification of the data-engine streaming pipeline (Go source) against its
natural-language specification.  Shallow embedding: the pure content of each
Go function is translated into a Lean definition; external effects (file
handles, channels, SQL drivers) appear as explicit parameters or outcome
types.
-/

namespace DataEngine

/-- A cell value, the closed value set of the data model
{null, string, integer, floating-point, boolean, byte-sequence}.
A floating-point value is identified by its Go `%v` rendering (the shortest
decimal text that round-trips to the IEEE value), carried in the
constructor; a byte-sequence is identified by its decoded text, since Go's
`string(b)` reinterprets the same bytes verbatim. -/
inductive Value where
  | null : Value
  | str (s : String) : Value
  | int (n : Int) : Value
  | float (repr : String) : Value
  | boolean (b : Bool) : Value
  | bytes (text : String) : Value
deriving DecidableEq, Repr

/-- Row: an ordered sequence of column values. -/
abbrev Row := List Value

/-! ## CSV exporter (src/go/exporter/csv.go) -/

/-- Embeds `formatValue` from exporter/csv.go: converts a value to its CSV
field text.  nil ⇒ "", string ⇒ itself, []byte ⇒ string(v), ints ⇒ %d,
floats ⇒ %v (the rendering carried by the constructor), bool ⇒
"true"/"false". -/
def formatValue : Value → String
  | Value.null => ""
  | Value.str s => s
  | Value.bytes text => text
  | Value.int n => toString n
  | Value.float r => r
  | Value.boolean b => if b then "true" else "false"

/-- Embeds `CSVExporter.WriteRow`: the CSV record (list of field strings)
written for a row. -/
def csvWriteRecord (row : Row) : List String :=
  row.map formatValue

/-! ## CSV importer (worker package file, CSVImporter) -/

/-- Embeds the value-boxing step of `CSVImporter.NextRow`: each field string
of a successfully read CSV record becomes a string-typed value. -/
def csvRecordToRow (record : List String) : Row :=
  record.map Value.str

/-- Modelled from the spec: the type-widened (textual) form of a value, as
the round-trip property describes it — every value re-read as its textual
form: null as the empty text, booleans as "true"/"false", byte-sequences as
their decoded text, numeric types as their natural textual rendering. -/
def widenedForm : Value → Value
  | Value.null => Value.str ""
  | Value.str s => Value.str s
  | Value.bytes text => Value.str text
  | Value.int n => Value.str (toString n)
  | Value.float r => Value.str r
  | Value.boolean b => Value.str (if b then "true" else "false")

/-! ## Worker pool accumulator (worker package) -/

/-- Embeds `Pool.accumulator`: rows arrive one at a time over the input
channel; each is appended to the in-progress batch, which is flushed to the
batch channel once its length reaches the batch size; when the input closes
the remaining partial batch, if nonempty, is flushed.  `pending` is the
in-progress batch, `input` the rows still to arrive.  The run is assumed
error-free and uncancelled, so every emitted batch is delivered to
`processBatch`. -/
def accumulator {α : Type} (batchSize : Nat) (pending : List α) :
    List α → List (List α)
  | [] => if pending.isEmpty then [] else [pending]
  | r :: rest =>
      let b := pending ++ [r]
      if batchSize ≤ b.length then
        b :: accumulator batchSize [] rest
      else
        accumulator batchSize b rest

/-- The batches delivered to `processBatch` for a submitted row sequence, in
an error-free uncancelled run: the accumulator starting from an empty
in-progress batch. -/
def deliveredBatches {α : Type} (batchSize : Nat) (rows : List α) :
    List (List α) :=
  accumulator batchSize [] rows

theorem accumulator_flatten {α : Type} (B : Nat) (hB : 1 ≤ B) :
    ∀ (input pending : List α), pending.length < B →
      (accumulator B pending input).flatten = pending ++ input := by
  intro input
  induction input with
  | nil =>
      intro pending _
      by_cases h : pending.isEmpty
      · simp [accumulator, h, List.isEmpty_iff.mp h]
      · simp [accumulator, h]
  | cons r rest ih =>
      intro pending _
      simp only [accumulator]
      by_cases h : B ≤ (pending ++ [r]).length
      · rw [if_pos h, List.flatten_cons, ih [] (by simpa using hB)]
        simp
      · rw [if_neg h, ih (pending ++ [r]) (Nat.lt_of_not_le h)]
        simp

theorem accumulator_eq_nil_iff {α : Type} (B : Nat) (hB : 1 ≤ B)
    (input pending : List α) (hlt : pending.length < B) :
    accumulator B pending input = [] → pending = [] ∧ input = [] := by
  intro h
  have hflat := accumulator_flatten B hB input pending hlt
  rw [h] at hflat
  simp at hflat
  exact hflat

theorem accumulator_full_sizes {α : Type} (B : Nat) (hB : 1 ≤ B) :
    ∀ (input pending : List α), pending.length < B →
      ∀ b ∈ (accumulator B pending input).dropLast, b.length = B := by
  intro input
  induction input with
  | nil =>
      intro pending _ b hb
      by_cases h : pending.isEmpty <;> simp [accumulator, h] at hb
  | cons r rest ih =>
      intro pending hlt
      simp only [accumulator]
      by_cases h : B ≤ (pending ++ [r]).length
      · rw [if_pos h]
        have hlen : (pending ++ [r]).length = B := by
          simp only [List.length_append, List.length_singleton] at h ⊢
          omega
        intro b hb
        cases hrest : accumulator B ([] : List α) rest with
        | nil => rw [hrest] at hb; simp at hb
        | cons c cs =>
            rw [hrest] at hb
            rw [List.dropLast_cons₂] at hb
            rcases List.mem_cons.mp hb with h1 | h2
            · rw [h1]; exact hlen
            · have := ih [] (by simpa using hB)
              rw [hrest] at this
              exact this b h2
      · rw [if_neg h]
        exact ih (pending ++ [r]) (Nat.lt_of_not_le h)

theorem accumulator_last_partial {α : Type} (B : Nat) (hB : 1 ≤ B) :
    ∀ (input pending : List α), pending.length < B →
      (pending.length + input.length) % B ≠ 0 →
      ∃ l, (accumulator B pending input).getLast? = some l ∧
        l.length = (pending.length + input.length) % B := by
  intro input
  induction input with
  | nil =>
      intro pending hlt hmod
      simp only [List.length_nil, Nat.add_zero] at hmod
      have hne : ¬ pending.isEmpty := by
        intro h
        rw [List.isEmpty_iff.mp h] at hmod
        simp at hmod
      refine ⟨pending, ?_, ?_⟩
      · simp [accumulator, hne]
      · exact (Nat.mod_eq_of_lt hlt).symm
  | cons r rest ih =>
      intro pending hlt hmod
      simp only [accumulator]
      by_cases h : B ≤ (pending ++ [r]).length
      · rw [if_pos h]
        have hlen : pending.length + 1 = B := by
          simp only [List.length_append, List.length_singleton] at h
          omega
        have htot : (pending.length + (r :: rest).length) % B = rest.length % B := by
          simp only [List.length_cons]
          have : pending.length + (rest.length + 1) = B + rest.length := by omega
          rw [this, Nat.add_mod_left]
        rw [htot] at hmod ⊢
        obtain ⟨l, hl, hlen'⟩ := ih [] (by simpa using hB) (by simpa using hmod)
        have hne : accumulator B ([] : List α) rest ≠ [] := by
          intro hnil
          rw [hnil] at hl
          simp at hl
        refine ⟨l, ?_, by simpa using hlen'⟩
        cases hrest : accumulator B ([] : List α) rest with
        | nil => exact absurd hrest hne
        | cons c cs =>
            rw [hrest] at hl
            rw [List.getLast?_cons_cons]
            rw [← hrest] at hl ⊢
            exact hl
      · rw [if_neg h]
        have htot : (pending ++ [r]).length + rest.length =
            pending.length + (r :: rest).length := by
          simp; omega
        obtain ⟨l, hl, hlen'⟩ := ih (pending ++ [r]) (Nat.lt_of_not_le h)
          (by rw [htot]; exact hmod)
        exact ⟨l, hl, by rw [hlen', htot]⟩

/-- C1 — Batch completeness: in an error-free, uncancelled run with batch
size B ≥ 1, the batches delivered to `processBatch` are exactly a partition
of the submitted rows: concatenating the delivered batches in order yields
the input back (so every row appears in exactly one batch, no loss, no
duplication), every batch except possibly the last has size exactly B, the
batch sizes sum to the row count R, and when R mod B is nonzero the final
batch has size R mod B. -/
theorem pool_batch_completeness {α : Type} (B : Nat) (rows : List α)
    (hB : 1 ≤ B) :
    (deliveredBatches B rows).flatten = rows ∧
    (∀ b ∈ (deliveredBatches B rows).dropLast, b.length = B) ∧
    ((deliveredBatches B rows).map List.length).sum = rows.length ∧
    (rows.length % B ≠ 0 →
      ∃ l, (deliveredBatches B rows).getLast? = some l ∧
        l.length = rows.length % B) := by
  have h0 : ([] : List α).length < B := by simpa using hB
  refine ⟨?_, ?_, ?_, ?_⟩
  · simpa using accumulator_flatten B hB rows [] h0
  · exact accumulator_full_sizes B hB rows [] h0
  · have := accumulator_flatten B hB rows [] h0
    have hlen : (deliveredBatches B rows).flatten.length = rows.length := by
      rw [deliveredBatches, this]; simp
    rw [List.length_flatten] at hlen
    exact hlen
  · intro hmod
    simpa using accumulator_last_partial B hB rows [] h0 (by simpa using hmod)

theorem pool_batch_completeness_witness :
    (deliveredBatches 2 ([10, 11, 12, 13, 14] : List Nat)).flatten =
      [10, 11, 12, 13, 14] :=
  (pool_batch_completeness 2 [10, 11, 12, 13, 14] (by decide)).1

theorem widenedForm_eq_str_formatValue (v : Value) :
    widenedForm v = Value.str (formatValue v) := by
  cases v <;> rfl

/-- C2 — Round-trip: writing any row of the closed value set with the CSV
exporter (booleans as "true"/"false", byte-sequences decoded as text,
numerics in their natural textual form) and reading the written record back
with the CSV importer yields the original row with every value re-read as
its textual (string-typed) form. -/
theorem csv_roundtrip_widens (row : Row) :
    csvRecordToRow (csvWriteRecord row) = row.map widenedForm := by
  induction row with
  | nil => rfl
  | cons v rest ih =>
      simp only [csvWriteRecord, csvRecordToRow, List.map_cons] at ih ⊢
      rw [ih, widenedForm_eq_str_formatValue]

/-! ## Format auto-detection (src/go/config.go, detectFormat) -/

/-- ASCII lowering of one character, the case relevant to extension
comparison (Go strings.ToLower). -/
def lowerChar (c : Char) : Char :=
  if 'A' ≤ c ∧ c ≤ 'Z' then Char.ofNat (c.toNat + 32) else c

/-- ASCII lowering of a string (Go strings.ToLower restricted to the ASCII
range, which is all the extension comparison needs). -/
def lowerString (s : String) : String :=
  String.mk (s.data.map lowerChar)

/-- Embeds Go filepath.Ext: scan the path from the end; stop at a path
separator; at the first dot return the suffix from that dot on; otherwise
return the empty string.  The first argument is the reversed character list
of the path, the second accumulates the characters already passed. -/
def extScan : List Char → List Char → String
  | [], _ => ""
  | c :: rest, acc =>
      if c = '/' then ""
      else if c = '.' then String.mk (c :: acc)
      else extScan rest (c :: acc)

/-- Go filepath.Ext of a path. -/
def filepathExt (path : String) : String :=
  extScan path.data.reverse []

/-- Embeds the content-sniffing tail of `detectFormat`: `header` is the
(at most 512) bytes actually read.  An empty read is a detection error; a
ZIP local-file-header signature means xlsx; at least 8 bytes starting with
the OLE2 signature prefix is a legacy-Excel rejection; anything else
defaults to csv. -/
def sniffHeader (header : List Nat) : Except String String :=
  if header.length = 0 then
    Except.error "cannot read file to detect format"
  else if 4 ≤ header.length ∧ header.take 4 = [0x50, 0x4B, 0x03, 0x04] then
    Except.ok "xlsx"
  else if 8 ≤ header.length ∧ header.take 4 = [0xD0, 0xCF, 0x11, 0xE0] then
    Except.error "XLS format detected (legacy Excel format). Please convert to XLSX or CSV"
  else
    Except.ok "csv"

/-- Embeds `detectFormat` from config.go: extension dispatch first, and only
when the (lowercased) extension matches none of the known cases are the
first 512 bytes of the file content sniffed. -/
def detectFormat (path : String) (content : List Nat) : Except String String :=
  let ext := lowerString (filepathExt path)
  if ext = ".csv" then Except.ok "csv"
  else if ext = ".tsv" then Except.ok "tsv"
  else if ext = ".jsonl" then Except.ok "jsonl"
  else if ext = ".ndjson" then Except.ok "jsonl"
  else if ext = ".xlsx" then Except.ok "xlsx"
  else if ext = ".xls" then
    Except.error "XLS format is not supported (legacy Excel format). Please convert to XLSX or CSV"
  else if ext = ".json" then
    Except.error "JSON arrays are not supported. Use JSONL (newline-delimited JSON) instead"
  else sniffHeader (content.take 512)

/-- C3 counterexample: the claim says that when the extension is
inconclusive the sniffing stage returns csv whenever neither the ZIP nor
the OLE2 signature is present, but a file with no readable byte (an empty
file) is rejected with a read error instead of defaulting to csv. -/
theorem detect_format_counterexample :
    detectFormat "data" [] = Except.error "cannot read file to detect format" ∧
    detectFormat "data" [] ≠ Except.ok "csv" := by
  constructor
  · rfl
  · exact fun h => Except.noConfusion h

/-- C3 amended: extension dispatch exactly as claimed (.csv, .tsv,
.jsonl/.ndjson, .xlsx, the .xls and .json hard rejections, all after ASCII
lowering), and content sniffing only for unknown extensions — but the sniff
returns csv only when at least one byte could be read; an empty read is a
hard detection error, and the OLE2 rejection additionally requires at least
8 readable bytes. -/
theorem detect_format_spec :
    (∀ (path : String) (content : List Nat),
      (lowerString (filepathExt path) = ".csv" →
        detectFormat path content = Except.ok "csv") ∧
      (lowerString (filepathExt path) = ".tsv" →
        detectFormat path content = Except.ok "tsv") ∧
      (lowerString (filepathExt path) = ".jsonl" ∨
          lowerString (filepathExt path) = ".ndjson" →
        detectFormat path content = Except.ok "jsonl") ∧
      (lowerString (filepathExt path) = ".xlsx" →
        detectFormat path content = Except.ok "xlsx") ∧
      (lowerString (filepathExt path) = ".xls" →
        detectFormat path content = Except.error
          "XLS format is not supported (legacy Excel format). Please convert to XLSX or CSV") ∧
      (lowerString (filepathExt path) = ".json" →
        detectFormat path content = Except.error
          "JSON arrays are not supported. Use JSONL (newline-delimited JSON) instead") ∧
      (lowerString (filepathExt path) ∉
          ([".csv", ".tsv", ".jsonl", ".ndjson", ".xlsx", ".xls", ".json"] : List String) →
        detectFormat path content = sniffHeader (content.take 512))) ∧
    (∀ header : List Nat,
      (header = [] →
        sniffHeader header = Except.error "cannot read file to detect format") ∧
      (header.take 4 = [0x50, 0x4B, 0x03, 0x04] →
        sniffHeader header = Except.ok "xlsx") ∧
      (8 ≤ header.length → header.take 4 = [0xD0, 0xCF, 0x11, 0xE0] →
        sniffHeader header = Except.error
          "XLS format detected (legacy Excel format). Please convert to XLSX or CSV") ∧
      (header ≠ [] → header.take 4 ≠ [0x50, 0x4B, 0x03, 0x04] →
        ¬(8 ≤ header.length ∧ header.take 4 = [0xD0, 0xCF, 0x11, 0xE0]) →
        sniffHeader header = Except.ok "csv")) := by
  constructor
  · intro path content
    refine ⟨?_, ?_, ?_, ?_, ?_, ?_, ?_⟩
    · intro h; simp [detectFormat, h]
    · intro h; simp [detectFormat, h]
    · rintro (h | h) <;> simp [detectFormat, h]
    · intro h; simp [detectFormat, h]
    · intro h; simp [detectFormat, h]
    · intro h; simp [detectFormat, h]
    · intro h
      simp only [List.mem_cons, List.mem_singleton, not_or] at h
      obtain ⟨h1, h2, h3, h4, h5, h6, h7, -⟩ := h
      simp [detectFormat, h1, h2, h3, h4, h5, h6, h7]
  · intro header
    refine ⟨?_, ?_, ?_, ?_⟩
    · intro h; simp [sniffHeader, h]
    · intro h
      have hlen : 4 ≤ header.length := by
        have := congrArg List.length h
        simp at this
        omega
      have hne : header.length ≠ 0 := by omega
      simp [sniffHeader, h, hlen, hne]
    · intro hlen h
      have hne : header.length ≠ 0 := by omega
      have hzip : header.take 4 ≠ [0x50, 0x4B, 0x03, 0x04] := by
        rw [h]; decide
      simp [sniffHeader, h, hlen, hne, hzip]
    · intro hne hzip hole
      have hlen : header.length ≠ 0 := by
        have := List.length_pos.mpr hne
        omega
      simp [sniffHeader, hlen, hzip, hole]

theorem detect_format_spec_witness :
    detectFormat "Table.CSV" [] = Except.ok "csv" :=
  (detect_format_spec.1 "Table.CSV" []).1 (by decide)

/-! ## JSONL column discovery (JSONLImporter.Open) -/

/-- Embeds the column-extraction loop of `JSONLImporter.Open`: the decoded
first object is a Go map, whose range loop visits each key exactly once in
an unspecified order; `iterOrder` is the sequence in which the loop visits
the keys, and the loop appends each visited key to the column list. -/
def jsonlOpenColumns (iterOrder : List String) : List String :=
  iterOrder.foldl (fun cols key => cols ++ [key]) []

theorem jsonlOpenColumns_eq (iterOrder : List String) :
    jsonlOpenColumns iterOrder = iterOrder := by
  have haux : ∀ (l acc : List String),
      l.foldl (fun cols key => cols ++ [key]) acc = acc ++ l := by
    intro l
    induction l with
    | nil => intro acc; simp
    | cons x xs ih => intro acc; simp [List.foldl_cons, ih]
  simpa using haux iterOrder []

/-- C4 counterexample: for the first-line object with keys a then b (in
insertion order), the reversed visit order is a legitimate Go map iteration
order, yet the discovered columns differ from the insertion order, and two
legitimate iteration orders of the same first line give different column
sequences — so the column order is neither the insertion order nor a
deterministic function of the first line. -/
theorem jsonl_columns_counterexample :
    List.Perm ["b", "a"]
      (([("a", Value.null), ("b", Value.int 1)].map Prod.fst)) ∧
    List.Perm ["a", "b"]
      (([("a", Value.null), ("b", Value.int 1)].map Prod.fst)) ∧
    jsonlOpenColumns ["b", "a"] ≠
      ([("a", Value.null), ("b", Value.int 1)].map Prod.fst) ∧
    jsonlOpenColumns ["b", "a"] ≠ jsonlOpenColumns ["a", "b"] := by
  refine ⟨by decide, by decide, ?_, ?_⟩ <;> decide

/-- C4 amended: opening the JSONL importer returns as columns exactly the
key set of the first decoded object — every key appears exactly once — but
in Go map iteration order, an unspecified permutation of those keys;
neither insertion order nor determinism across opens is guaranteed. -/
theorem jsonl_open_columns_perm (obj : List (String × Value))
    (iterOrder : List String)
    (h : List.Perm iterOrder (obj.map Prod.fst)) :
    List.Perm (jsonlOpenColumns iterOrder) (obj.map Prod.fst) ∧
    (jsonlOpenColumns iterOrder).length = obj.length := by
  constructor
  · rw [jsonlOpenColumns_eq]; exact h
  · rw [jsonlOpenColumns_eq]
    calc iterOrder.length = (obj.map Prod.fst).length := h.length_eq
      _ = obj.length := List.length_map obj Prod.fst

theorem jsonl_open_columns_perm_witness :
    List.Perm (jsonlOpenColumns ["b", "a"])
      ([("a", Value.null), ("b", Value.int 1)].map Prod.fst) :=
  (jsonl_open_columns_perm [("a", Value.null), ("b", Value.int 1)]
    ["b", "a"] (by decide)).1

/-! ## XLSX size ceiling (XLSXImporter.Open) -/

/-- MaxXLSXSize from importer/xlsx.go: 100 MB. -/
def MaxXLSXSize : Nat := 100 * 1024 * 1024

/-- The workbook content behind an XLSX archive: the sheets in order, each
sheet a list of rows of cell texts. -/
structure XLSXArchive where
  sheets : List (List (List String))
deriving DecidableEq, Repr

/-- The error text produced by the size gate of `XLSXImporter.Open`. -/
def xlsxSizeError (size : Nat) : String :=
  "XLSX file too large: " ++ toString size ++ " bytes (max " ++
    toString MaxXLSXSize ++ " bytes). Please convert to CSV for large files"

/-- Embeds `XLSXImporter.Open`: the file size is checked against the 100 MB
ceiling before the workbook archive is opened (`archive = none` models
excelize.OpenFile failing); then the first sheet is located, its first row
becomes the columns and the remaining rows are what NextRow will stream. -/
def xlsxOpen (size : Nat) (archive : Option XLSXArchive) :
    Except String (List String × List (List String)) :=
  if MaxXLSXSize < size then Except.error (xlsxSizeError size)
  else
    match archive with
    | none => Except.error "failed to open XLSX file"
    | some a =>
      match a.sheets with
      | [] => Except.error "no sheets found in XLSX file"
      | sheet :: _ =>
        match sheet with
        | [] => Except.error "empty sheet"
        | header :: rest => Except.ok (header, rest)

/-- C5 counterexample: a workbook whose file size is exactly the 100 MB
threshold (100 * 1024 * 1024 bytes) is NOT rejected — the size gate only
fires strictly above the threshold, so Open proceeds to the workbook and
produces columns and a data row. -/
theorem xlsx_size_counterexample :
    xlsxOpen (100 * 1024 * 1024) (some ⟨[[["id"], ["1"]]]⟩) =
      Except.ok (["id"], [["1"]]) := by
  rfl

/-- C5 amended: every XLSX input file whose size is strictly above the
100 MB threshold is rejected by Open with an error containing the guidance
to convert to CSV, independently of the workbook archive (hence before it
is opened), and no columns or rows are ever produced from such a file. -/
theorem xlsx_size_gate (size : Nat) (archive : Option XLSXArchive)
    (h : MaxXLSXSize < size) :
    xlsxOpen size archive = Except.error (xlsxSizeError size) ∧
    List.IsInfix ("convert to CSV").data (xlsxSizeError size).data ∧
    (∀ cols rows, xlsxOpen size archive ≠ Except.ok (cols, rows)) := by
  have heq : xlsxOpen size archive = Except.error (xlsxSizeError size) := by
    simp [xlsxOpen, h]
  refine ⟨heq, ?_, ?_⟩
  · refine ⟨("XLSX file too large: " ++ toString size ++
      " bytes (max " ++ toString MaxXLSXSize ++ " bytes). Please ").data,
      (" for large files" : String).data, ?_⟩
    simp only [xlsxSizeError, String.data_append, List.append_assoc]
    rfl
  · intro cols rows hok
    rw [heq] at hok
    exact Except.noConfusion hok

theorem xlsx_size_gate_witness :
    xlsxOpen 104857601 none = Except.error (xlsxSizeError 104857601) :=
  (xlsx_size_gate 104857601 none (by decide)).1

/-! ## Batch-size resolution (Config.Validate, config.go lines 43-49) -/

/-- Embeds the batch-size fragment of `Config.Validate`: a non-positive
value is replaced by the default 5000, and a value above 50000 is rejected
with an error (formatting the value after defaulting); otherwise the value
passes through unchanged. -/
def validateBatchSize (b : Int) : Except String Int :=
  let b2 := if b ≤ 0 then 5000 else b
  if 50000 < b2 then
    Except.error ("batch_size too large (max 50000): " ++ toString b2)
  else Except.ok b2

/-- C6 counterexample: batch_size 60000 is rejected by Validate with an
error, not clamped into the range — in particular it does not resolve to
the upper bound 50000. -/
theorem batch_size_clamp_counterexample :
    validateBatchSize 60000 =
      Except.error "batch_size too large (max 50000): 60000" ∧
    validateBatchSize 60000 ≠ Except.ok 50000 := by
  constructor
  · rfl
  · exact fun h => Except.noConfusion h

/-- C6 amended: Validate resolves batch_size so that a non-positive value
becomes the default 5000 and an in-range value (1..50000) is unchanged;
after a successful Validate the batch size always lies in 1..50000; but a
value above 50000 is rejected with an error rather than clamped. -/
theorem batch_size_resolution (b : Int) :
    (b ≤ 0 → validateBatchSize b = Except.ok 5000) ∧
    (1 ≤ b → b ≤ 50000 → validateBatchSize b = Except.ok b) ∧
    (∀ v, validateBatchSize b = Except.ok v → 1 ≤ v ∧ v ≤ 50000) ∧
    (50000 < b → validateBatchSize b =
      Except.error ("batch_size too large (max 50000): " ++ toString b)) := by
  refine ⟨?_, ?_, ?_, ?_⟩
  · intro h
    simp only [validateBatchSize, if_pos h]
    norm_num
  · intro h1 h2
    have hnp : ¬ b ≤ 0 := by omega
    simp only [validateBatchSize, if_neg hnp]
    rw [if_neg (by omega)]
  · intro v hv
    simp only [validateBatchSize] at hv
    by_cases h : b ≤ 0
    · rw [if_pos h] at hv
      rw [if_neg (by norm_num)] at hv
      cases hv
      omega
    · rw [if_neg h] at hv
      by_cases h2 : 50000 < b
      · rw [if_pos h2] at hv
        exact Except.noConfusion hv
      · rw [if_neg h2] at hv
        cases hv
        omega
  · intro h
    have hnp : ¬ b ≤ 0 := by omega
    simp only [validateBatchSize, if_neg hnp, if_pos h]

theorem batch_size_resolution_witness :
    validateBatchSize 7 = Except.ok 7 :=
  (batch_size_resolution 7).2.1 (by decide) (by decide)

/-! ## Row projection and padding (XLSXImporter.NextRow, JSONLImporter.NextRow) -/

/-- Embeds the padding loop of `XLSXImporter.NextRow`: the produced row has
one slot per discovered column; slot i carries the cell text when the read
row has a cell there and null otherwise (rows shorter than the column count
are padded, extra cells are dropped). -/
def xlsxNextRowPad (columns : List String) (cells : List String) : Row :=
  (List.range columns.length).map fun i =>
    if h : i < cells.length then Value.str (cells.get ⟨i, h⟩) else Value.null

/-- Embeds the projection loop of `JSONLImporter.NextRow`: the decoded
object is re-projected onto the fixed column order; a column with no
matching key contributes null, keys outside the column set are ignored. -/
def jsonlProjectRow (columns : List String) (obj : List (String × Value)) :
    Row :=
  columns.map fun col =>
    match List.lookup col obj with
    | some v => v
    | none => Value.null

/-! ## NextRow outcomes and the end-of-stream sentinel (ImportData loop) -/

/-- One read of `CSVImporter.NextRow`: the underlying csv.Reader either hits
io.EOF, fails with a real read error, or yields a record. -/
inductive CsvRead where
  | eof : CsvRead
  | readErr (e : String) : CsvRead
  | record (fields : List String) : CsvRead
deriving DecidableEq

/-- Embeds `CSVImporter.NextRow`: io.EOF becomes the textual marker "EOF", a
real reader error is wrapped, a record is boxed into string values. -/
def csvNextRow : CsvRead → Except String Row
  | CsvRead.eof => Except.error "EOF"
  | CsvRead.readErr e => Except.error ("failed to read row: " ++ e)
  | CsvRead.record fs => Except.ok (csvRecordToRow fs)

/-- One read of the JSONL scanner: either the scan ends (with the scanner
error, if any), or a line arrives whose JSON decoding succeeded or failed. -/
inductive JsonlRead where
  | scanEnd (scanErr : Option String) : JsonlRead
  | line (decoded : Except String (List (String × Value))) : JsonlRead

/-- Embeds `JSONLImporter.NextRow`: a buffered first row is returned as-is;
otherwise scan exhaustion with no scanner error becomes "EOF", a scanner
error or invalid JSON is wrapped, and a decoded object is projected onto the
column order. -/
def jsonlNextRow (columns : List String)
    (pendingFirst : Option (List (String × Value))) (r : JsonlRead) :
    Except String Row :=
  match pendingFirst with
  | some obj => Except.ok (jsonlProjectRow columns obj)
  | none =>
    match r with
    | JsonlRead.scanEnd none => Except.error "EOF"
    | JsonlRead.scanEnd (some e) => Except.error ("scanner error: " ++ e)
    | JsonlRead.line (Except.error e) => Except.error ("invalid JSON: " ++ e)
    | JsonlRead.line (Except.ok obj) => Except.ok (jsonlProjectRow columns obj)

/-- One read of the XLSX row iterator: exhausted with no error, exhausted
because of an iteration error, a cell-extraction failure, or a row of cell
texts. -/
inductive XlsxRead where
  | exhausted : XlsxRead
  | iterErr (e : String) : XlsxRead
  | cellsErr (e : String) : XlsxRead
  | cells (cs : List String) : XlsxRead
deriving DecidableEq

/-- Embeds `XLSXImporter.NextRow`: iterator exhaustion with no error becomes
"EOF", real failures are wrapped, and a row of cells is padded onto the
column count. -/
def xlsxNextRow (columns : List String) : XlsxRead → Except String Row
  | XlsxRead.exhausted => Except.error "EOF"
  | XlsxRead.iterErr e => Except.error ("row iteration error: " ++ e)
  | XlsxRead.cellsErr e => Except.error ("failed to read row: " ++ e)
  | XlsxRead.cells cs => Except.ok (xlsxNextRowPad columns cs)

/-- What one iteration of the `ImportData` read-submit loop does with the
NextRow result: break out normally, cancel the pool and fail the run, or
submit the row. -/
inductive LoopAction where
  | finishLoop : LoopAction
  | failRun (msg : String) (poolCancelled : Bool) : LoopAction
  | submitRow (r : Row) : LoopAction
deriving DecidableEq

/-- Embeds the error dispatch of the `ImportData` loop: an error whose text
compares equal to "EOF" by value breaks the loop; any other error cancels
the pool and fails the run with the wrapped message; a row is submitted. -/
def importLoopStep (res : Except String Row) : LoopAction :=
  match res with
  | Except.ok r => LoopAction.submitRow r
  | Except.error e =>
      if e = "EOF" then LoopAction.finishLoop
      else LoopAction.failRun ("failed to read row: " ++ e) true

theorem wrapped_ne_eof (p e : String) (hp : 4 ≤ p.length) : p ++ e ≠ "EOF" := by
  intro h
  have hlen := congrArg String.length h
  rw [String.length_append] at hlen
  have : ("EOF" : String).length = 3 := rfl
  omega

/-- C7 — Column padding: an XLSX row with fewer cells than the column count
comes back as a row of exactly the column count with null in each missing
position, a JSONL object missing a key of the column set yields null in
that position, and in both cases NextRow succeeds (missing cells or keys
are never an error). -/
theorem column_padding (columns cells : List String)
    (obj : List (String × Value)) :
    (xlsxNextRowPad columns cells).length = columns.length ∧
    (∀ i, i < columns.length → cells.length ≤ i →
      (xlsxNextRowPad columns cells)[i]? = some Value.null) ∧
    (jsonlProjectRow columns obj).length = columns.length ∧
    (∀ (i : Nat) (col : String), columns[i]? = some col →
      List.lookup col obj = none →
      (jsonlProjectRow columns obj)[i]? = some Value.null) ∧
    xlsxNextRow columns (XlsxRead.cells cells) =
      Except.ok (xlsxNextRowPad columns cells) ∧
    jsonlNextRow columns none (JsonlRead.line (Except.ok obj)) =
      Except.ok (jsonlProjectRow columns obj) := by
  refine ⟨?_, ?_, ?_, ?_, rfl, rfl⟩
  · simp [xlsxNextRowPad]
  · intro i hi hcells
    have hnot : ¬ i < cells.length := by omega
    simp [xlsxNextRowPad, List.getElem?_map, List.getElem?_range hi, hnot]
  · simp [jsonlProjectRow]
  · intro i col hcol hlook
    simp [jsonlProjectRow, List.getElem?_map, hcol, hlook]

theorem column_padding_witness :
    (xlsxNextRowPad ["id", "name"] ["1"])[1]? = some Value.null :=
  (column_padding ["id", "name"] ["1"] []).2.1 1 (by decide) (by decide)

/-- C8 — End-of-stream sentinel: for each importer, NextRow yields the error
whose text compares equal to "EOF" exactly on input exhaustion (never for a
real read failure, whose wrapped message always differs from "EOF"), and
the import loop breaks normally exactly on that marker while every other
error cancels the pool and fails the run. -/
theorem eof_sentinel (columns : List String) :
    (∀ r : CsvRead, csvNextRow r = Except.error "EOF" ↔ r = CsvRead.eof) ∧
    (∀ r : JsonlRead,
      jsonlNextRow columns none r = Except.error "EOF" ↔
        r = JsonlRead.scanEnd none) ∧
    (∀ r : XlsxRead,
      xlsxNextRow columns r = Except.error "EOF" ↔ r = XlsxRead.exhausted) ∧
    (∀ res : Except String Row,
      importLoopStep res = LoopAction.finishLoop ↔ res = Except.error "EOF") ∧
    (∀ e, e ≠ "EOF" → importLoopStep (Except.error e) =
      LoopAction.failRun ("failed to read row: " ++ e) true) := by
  refine ⟨?_, ?_, ?_, ?_, ?_⟩
  · intro r
    cases r with
    | eof => simp [csvNextRow]
    | readErr e =>
        simp only [csvNextRow]
        constructor
        · intro h
          exfalso
          exact wrapped_ne_eof "failed to read row: " e (by decide)
            (by simpa using h)
        · intro h; exact CsvRead.noConfusion h
    | record fs =>
        simp [csvNextRow]
  · intro r
    cases r with
    | scanEnd oe =>
        cases oe with
        | none => simp [jsonlNextRow]
        | some e =>
            simp only [jsonlNextRow]
            constructor
            · intro h
              exfalso
              exact wrapped_ne_eof "scanner error: " e (by decide)
                (by simpa using h)
            · intro h; simp at h
    | line d =>
        cases d with
        | error e =>
            simp only [jsonlNextRow]
            constructor
            · intro h
              exfalso
              exact wrapped_ne_eof "invalid JSON: " e (by decide)
                (by simpa using h)
            · intro h; exact JsonlRead.noConfusion h
        | ok obj =>
            simp [jsonlNextRow]
  · intro r
    cases r with
    | exhausted => simp [xlsxNextRow]
    | iterErr e =>
        simp only [xlsxNextRow]
        constructor
        · intro h
          exfalso
          exact wrapped_ne_eof "row iteration error: " e (by decide)
            (by simpa using h)
        · intro h; exact XlsxRead.noConfusion h
    | cellsErr e =>
        simp only [xlsxNextRow]
        constructor
        · intro h
          exfalso
          exact wrapped_ne_eof "failed to read row: " e (by decide)
            (by simpa using h)
        · intro h; exact XlsxRead.noConfusion h
    | cells cs => simp [xlsxNextRow]
  · intro res
    cases res with
    | ok r => simp [importLoopStep]
    | error e =>
        simp only [importLoopStep]
        by_cases h : e = "EOF"
        · simp [h]
        · simp [h]
  · intro e he
    simp [importLoopStep, he]

theorem eof_sentinel_witness :
    importLoopStep (Except.error "boom") =
      LoopAction.failRun ("failed to read row: " ++ "boom") true :=
  (eof_sentinel []).2.2.2.2 "boom" (by decide)

/-! ## Export orchestrator and writers (ExportData, CSVExporter, JSONLExporter) -/

/-- The output format of an export run, restricted to the two writers the
zero-row scenario names. -/
inductive OutputFormat where
  | csv : OutputFormat
  | jsonl : OutputFormat
deriving DecidableEq

/-- Embeds `JSONLExporter.WriteRow`: the written object pairs each column
name with the value at its position, null when the row is shorter. -/
def jsonlRowToObj (columns : List String) (row : Row) :
    List (String × Value) :=
  columns.enum.map fun p => (p.2, row.getD p.1 Value.null)

/-- The data a writer has committed: for CSV/TSV the records written in
order (header first), for JSONL the objects written one per line. -/
inductive WriterState where
  | csvW (records : List (List String)) : WriterState
  | jsonlW (lines : List (List (String × Value))) : WriterState
deriving DecidableEq

/-- Embeds writer Open: `CSVExporter.Open` writes the header record from
the column set immediately; `JSONLExporter.Open` creates the file and an
empty buffer, writing nothing. -/
def writerOpen (fmt : OutputFormat) (columns : List String) : WriterState :=
  match fmt with
  | OutputFormat.csv => WriterState.csvW [columns]
  | OutputFormat.jsonl => WriterState.jsonlW []

/-- Embeds writer WriteRow for both formats. -/
def writerWriteRow (columns : List String) (st : WriterState) (row : Row) :
    WriterState :=
  match st with
  | WriterState.csvW recs => WriterState.csvW (recs ++ [csvWriteRecord row])
  | WriterState.jsonlW lines =>
      WriterState.jsonlW (lines ++ [jsonlRowToObj columns row])

/-- Embeds the cursor loop of `ExportData`: open the writer (CSV writes the
header), write each cursor row in order counting rows, then check the
cursor error (`rows.Err()`); a cursor error fails the run, otherwise the
writer is flushed and the final count returned. -/
def exportRun (fmt : OutputFormat) (columns : List String)
    (cursorRows : List Row) (cursorErr : Option String) :
    Except String (WriterState × Nat) :=
  let st := cursorRows.foldl (writerWriteRow columns) (writerOpen fmt columns)
  match cursorErr with
  | some e => Except.error ("row iteration error: " ++ e)
  | none => Except.ok (st, cursorRows.length)

/-- C9 — Zero-row export: when the query cursor yields zero rows and no
cursor error, the run completes without error with final count 0; the CSV
writer output is exactly the header record written at Open, and the JSONL
writer output is empty. -/
theorem zero_row_export (columns : List String) :
    exportRun OutputFormat.csv columns [] none =
      Except.ok (WriterState.csvW [columns], 0) ∧
    exportRun OutputFormat.jsonl columns [] none =
      Except.ok (WriterState.jsonlW [], 0) :=
  ⟨rfl, rfl⟩

/-! ## Batch insert (PostgresConnector.BatchInsert, MySQLConnector.BatchInsert) -/

/-- Embeds the PostgreSQL placeholder construction: row i of a batch with
ncols columns uses the positional placeholders starting after the i * ncols
arguments already appended. -/
def pgPlaceholderRow (ncols rowIdx : Nat) : List String :=
  (List.range ncols).map fun j => "$" ++ toString (rowIdx * ncols + j + 1)

/-- Embeds the nonempty-batch SQL construction of
`PostgresConnector.BatchInsert` (multiValueInsert): the single multi-row
INSERT text and its flattened argument list. -/
def pgInsertStatement (table : String) (columns : List String)
    (rows : List Row) : String × List Value :=
  let valueGroups := (List.range rows.length).map fun i =>
    "(" ++ String.intercalate ", " (pgPlaceholderRow columns.length i) ++ ")"
  ("INSERT INTO " ++ table ++ " (" ++ String.intercalate ", " columns ++
      ") VALUES " ++ String.intercalate ", " valueGroups,
    rows.flatten)

/-- Embeds the nonempty-batch SQL construction of
`MySQLConnector.BatchInsert`: dialect-neutral ? placeholders. -/
def mysqlInsertStatement (table : String) (columns : List String)
    (rows : List Row) : String × List Value :=
  let valueGroups := (List.range rows.length).map fun _ =>
    "(" ++ String.intercalate ", " (columns.map fun _ => "?") ++ ")"
  ("INSERT INTO " ++ table ++ " (" ++ String.intercalate ", " columns ++
      ") VALUES " ++ String.intercalate ", " valueGroups,
    rows.flatten)

/-- Embeds `PostgresConnector.BatchInsert`: an empty rows slice returns
success immediately, before any SQL statement is constructed or executed
(`none` = no statement); otherwise the multi-row INSERT is built. -/
def pgBatchInsert (table : String) (columns : List String)
    (rows : List Row) : Option (String × List Value) :=
  if rows.length = 0 then none
  else some (pgInsertStatement table columns rows)

/-- Embeds `MySQLConnector.BatchInsert` the same way. -/
def mysqlBatchInsert (table : String) (columns : List String)
    (rows : List Row) : Option (String × List Value) :=
  if rows.length = 0 then none
  else some (mysqlInsertStatement table columns rows)

/-- The database state as the sequence of executed statements: executing no
statement leaves it unchanged, executing one appends it. -/
def applyBatchInsert (executed : List (String × List Value))
    (stmt : Option (String × List Value)) : List (String × List Value) :=
  match stmt with
  | none => executed
  | some s => executed ++ [s]

/-- C10 — Empty-batch insert is a no-op: for both connectors and every
table name and column set, BatchInsert on an empty rows slice constructs
and executes no SQL statement and leaves the database state unchanged. -/
theorem empty_batch_insert_noop (table : String) (columns : List String) :
    pgBatchInsert table columns [] = none ∧
    mysqlBatchInsert table columns [] = none ∧
    (∀ executed, applyBatchInsert executed (pgBatchInsert table columns []) =
      executed) ∧
    (∀ executed,
      applyBatchInsert executed (mysqlBatchInsert table columns []) =
      executed) :=
  ⟨rfl, rfl, fun _ => rfl, fun _ => rfl⟩

end DataEngine
